import Mathlib

/-!
Verification development for the twick media playback / export pipeline.

Shallow embedding of:
* the decoder-selection policy of `Video.seekFunction`
  (src/packages/2d/src/lib/components/Video.ts);
* the time-clamping logic of `Media.clampTime`, `Media.getDuration` and
  `Media.isIOS` (src/packages/2d/src/lib/components/Media.ts);
* the seek paths `Video.seekedVideo`, `Video.fastSeekedVideo`,
  `Audio.fastSeekedAudio` and the shared `Media.setCurrentTime`;
* the play-failure handling of `Media.simplePlay` / `Media.actuallyPlay`
  and the volume handling of `Media.setVolume`;
* the audio export helpers `getAssetPlacement`, `calculateAtempoFilters`
  and the effective-duration fallback of `prepareAudio`
  (src/packages/ffmpeg/src/generate-audio.ts).

JavaScript numbers are embedded as rationals (`ℚ`); the JavaScript `%`
operator (sign follows the dividend, truncated quotient) is embedded
explicitly as `jsMod`.
-/

namespace Twick

/-- Playback states of the player, from `@twick/core` `PlaybackState`. -/
inductive PlaybackState where
  | Playing
  | Rendering
  | Paused
  | Presenting
deriving DecidableEq, Repr, Fintype

/-- The explicit decoder override of a `Video` node (`Video.decoder`,
`null` embedded as `Option.none`). -/
inductive Decoder where
  | web
  | ffmpeg
  | slow
deriving DecidableEq, Repr, Fintype

/-- Detected container type of a video source (`Video.detectedFileType`). -/
inductive FileType where
  | mp4
  | webm
  | hls
  | mov
  | unknown
deriving DecidableEq, Repr, Fintype

/-- The frame-acquisition paths a `Video` node can return from
`seekFunction`: the native fast seek (`fastSeekedVideo`), the blocking
native seek (`seekedVideo`), the out-of-process ffmpeg extraction
(`ffmpegSeekedVideo`) and the in-process webcodec extraction
(`webcodecSeekedVideo`). -/
inductive SeekPath where
  | fastSeekedVideo
  | seekedVideo
  | ffmpegSeekedVideo
  | webcodecSeekedVideo
deriving DecidableEq, Repr, Fintype

/-- `Video.seekFunction` (Video.ts lines 390-432): selects the
frame-acquisition path from the playback state, the explicit decoder
override and the detected file type.  The call to `detectFileType` only
fills in `detectedFileType`, which is passed here as an argument. -/
def seekFunction (playbackState : PlaybackState) (decoder : Option Decoder)
    (detectedFileType : FileType) : SeekPath :=
  if playbackState = .Playing ∨ playbackState = .Presenting then
    .fastSeekedVideo
  else if playbackState = .Paused then
    .seekedVideo
  else if decoder = some .slow then
    .seekedVideo
  else if decoder = some .ffmpeg then
    .ffmpegSeekedVideo
  else if decoder = some .web then
    .webcodecSeekedVideo
  else if detectedFileType = .webm then
    .ffmpegSeekedVideo
  else if detectedFileType = .hls then
    .seekedVideo
  else
    .webcodecSeekedVideo

/-- Modelled from the spec: the `clamp` helper imported from
`@twick/core` (its source file is not under src/; only its call sites
are).  Per the spec, `clampTime` must return a value in `[0, duration]`,
so `clamp lo hi v` confines `v` to the interval `[lo, hi]`. -/
def clamp (lo hi v : ℚ) : ℚ := min hi (max lo v)

/-- Truncation toward zero, the rounding used by the JavaScript `%`
operator for its implicit quotient. -/
def rtrunc (q : ℚ) : ℤ := if 0 ≤ q then ⌊q⌋ else ⌈q⌉

/-- The JavaScript remainder operator `a % b`: the remainder has the sign
of the dividend `a` (`a - b * trunc (a / b)`).  JavaScript yields `NaN`
for `b = 0`, which rationals cannot represent (with `a / 0 = 0` this
definition degenerates to `a` there instead), so every claim about the
looping path carries a positive-duration hypothesis. -/
def jsMod (a b : ℚ) : ℚ := a - b * rtrunc (a / b)

/-- `Media.clampTime` (Media.ts lines 507-513) with the duration reported
by `getDuration` passed as an argument: if looping, the time is first
reduced by the JavaScript `%` operator, then clamped to `[0, duration]`. -/
def clampTime (loop : Bool) (duration t : ℚ) : ℚ :=
  clamp 0 duration (if loop then jsMod t duration else t)

/-- The navigator object used by `Media.isIOS` (Media.ts lines 569-575);
`none` embeds an undefined `navigator`. -/
structure Navigator where
  userAgent : String
  platform : String
  maxTouchPoints : ℕ
deriving DecidableEq, Repr

/-- The regex test of `/iPad|iPhone|iPod/` on the user agent string:
true iff one of the three literal alternatives occurs as a substring. -/
def uaIOSRegexTest (ua : String) : Bool :=
  decide (List.IsInfix (("iPad").data) ua.data) ||
    decide (List.IsInfix (("iPhone").data) ua.data) ||
    decide (List.IsInfix (("iPod").data) ua.data)

/-- `Media.isIOS` (Media.ts lines 569-575): false without a navigator;
otherwise true iff the user agent matches `/iPad|iPhone|iPod/` or the
platform is MacIntel with more than one touch point. -/
def isIOS (nav : Option Navigator) : Bool :=
  match nav with
  | none => false
  | some n =>
    uaIOSRegexTest n.userAgent ||
      (n.platform == "MacIntel" && decide (1 < n.maxTouchPoints))

/-- The kind of element returned by `mediaElement()`: the `instanceof
HTMLVideoElement` / `HTMLAudioElement` tests in `getDuration`. -/
inductive MediaKind where
  | video
  | audio
  | other
deriving DecidableEq, Repr

/-- The environment `Media.getDuration` reads: the navigator and the
media element (`none` embeds `mediaElement()` throwing because the
element is unavailable; otherwise its kind and native duration). -/
structure MediaEnv where
  nav : Option Navigator
  element : Option (MediaKind × ℚ)

/-- `Media.getDuration` (Media.ts lines 120-130): 0 when the element is
unavailable (the catch branch); the dummy duration 2 on iOS for video or
audio elements; otherwise the element's native duration. -/
def getDuration (env : MediaEnv) : ℚ :=
  match env.element with
  | none => 0
  | some (k, dur) =>
    if isIOS env.nav && (k == .video || k == .audio) then 2 else dur

/-- `Media.completion` (Media.ts lines 153-156) as a function of the
environment: the clamped time divided by the reported duration. -/
def completion (env : MediaEnv) (loop : Bool) (t : ℚ) : ℚ :=
  clampTime loop (getDuration env) t / getDuration env

/-- The observable state of a media node together with its native
element, as read and written by the seek paths of Media.ts, Video.ts and
Audio.ts.  `playing`, `time`, `loop`, `playbackRate` are the node's
signals; `elementRate`, `lastTime`, `currentTime`, `paused`,
`readyState` belong to the native handle side (`lastTime` is the node
field mirroring the last applied time).  `duration` is the native
duration, which `getDuration` reports in a non-iOS environment with the
element available. -/
structure MediaState where
  playing : Bool
  time : ℚ
  loop : Bool
  duration : ℚ
  playbackRate : ℚ
  elementRate : ℚ
  lastTime : ℚ
  currentTime : ℚ
  paused : Bool
  readyState : ℕ
deriving DecidableEq, Repr

/-- What a seek-path call did to the native element's clock. -/
inductive SeekAction where
  | none
  | forcedSeek
  | assign
deriving DecidableEq, Repr

/-- The clamped virtual time a seek path computes:
`this.clampTime(this.time())` with the duration reported for this
state. -/
def clampTimeOf (s : MediaState) : ℚ := clampTime s.loop s.duration s.time

/-- `Media.setCurrentTime` (Media.ts lines 168-190): a no-op when
`readyState < 2`; otherwise writes the native clock and records the
value in `lastTime`.  The returned flag says whether the native clock
was written. -/
def setCurrentTime (s : MediaState) (v : ℚ) : MediaState × Bool :=
  if s.readyState < 2 then (s, false)
  else ({ s with currentTime := v, lastTime := v }, true)

/-- `Video.seekedVideo` (Video.ts lines 290-308), the blocking seek used
while paused: applies the playback rate, pauses the element, no-ops when
the clamped time equals `lastTime`, and otherwise calls
`setCurrentTime`.  The flag says whether the native clock was written. -/
def seekedVideo (s : MediaState) : MediaState × Bool :=
  let time := clampTimeOf s
  let s1 := { s with elementRate := s.playbackRate }
  let s2 := if s1.paused = false then { s1 with paused := true } else s1
  if s2.lastTime = time then (s2, false)
  else setCurrentTime s2 time

/-- `Video.fastSeekedVideo` (Video.ts lines 310-342), the
tolerance-based seek used during playback: no-op when the clamped time
equals `lastTime`; otherwise plays or pauses the element according to
the effective playing condition, then forces a native seek only when the
drift exceeds one second, and directly assigns the clock when not
effectively playing. -/
def fastSeekedVideo (s : MediaState) : MediaState × SeekAction :=
  let time := clampTimeOf s
  let s1 := { s with elementRate := s.playbackRate }
  if s1.lastTime = time then (s1, .none)
  else
    let playing := s1.playing && decide (time < s1.duration) &&
      decide (0 < s1.elementRate)
    let s2 := if playing then
        (if s1.paused then { s1 with paused := false } else s1)
      else
        (if s1.paused = false then { s1 with paused := true } else s1)
    if 1 < |s2.currentTime - time| then ((setCurrentTime s2 time).1, .forcedSeek)
    else if playing = false then ({ s2 with currentTime := time }, .assign)
    else (s2, .none)

/-- `Audio.fastSeekedAudio` (Audio.ts lines 115-150): same shape as the
video fast seek but with an early pause-and-return when the raw time has
reached the duration, and a drift tolerance of 0.3 seconds.  (The
`ended`-listener registration in the source has no effect on this
state.) -/
def fastSeekedAudio (s : MediaState) : MediaState × SeekAction :=
  if ¬ (s.time < s.duration) then
    ({ s with playing := false, paused := true }, .none)
  else
    let time := clampTimeOf s
    let s1 := { s with elementRate := s.playbackRate }
    if s1.lastTime = time then (s1, .none)
    else
      let playing := s1.playing && decide (time < s1.duration) &&
        decide (0 < s1.elementRate)
      let s2 := if playing then
          (if s1.paused then { s1 with paused := false } else s1)
        else
          (if s1.paused = false then { s1 with paused := true } else s1)
      if 3/10 < |s2.currentTime - time| then
        ((setCurrentTime s2 time).1, .forcedSeek)
      else if playing = false then ({ s2 with currentTime := time }, .assign)
      else (s2, .none)

/-- The error kinds a rejected native `play()` promise can carry
(`getErrorReason` classifies codes 1-4; the handler's behaviour does not
depend on the kind). -/
inductive PlayErrorKind where
  | abort
  | network
  | decode
  | notSupported
deriving DecidableEq, Repr, Fintype

/-- The node's `playing` signal after `Media.actuallyPlay` (Media.ts
lines 447-487) and the settlement of the `media.play()` promise:
early-returns when not playing; when the element is paused it issues
`play()`, and the rejection handler downgrades `playing` to false unless
the playback state is `Rendering`. -/
def actuallyPlayPlaying (ps : PlaybackState) (playing paused : Bool)
    (outcome : Option PlayErrorKind) : Bool :=
  if playing = false then playing
  else if paused then
    match outcome with
    | Option.none => playing
    | some _ => if ps = .Rendering then playing else false
  else playing

/-- The node's `playing` signal after `Media.simplePlay` (Media.ts lines
411-445): returns untouched for an invalid src; when the element is
paused and the node playing it issues `play()`, with the same
`Rendering`-aware rejection handler. -/
def simplePlayPlaying (ps : PlaybackState) (srcValid playing paused : Bool)
    (outcome : Option PlayErrorKind) : Bool :=
  if srcValid = false then playing
  else if paused && playing then
    match outcome with
    | Option.none => playing
    | some _ => if ps = .Rendering then playing else false
  else playing

/-- The externally observable result of `Media.setVolume` (Media.ts
lines 192-219): whether the negative-volume warning fired, the value
stored in `this.volume`, the gain applied to the native element, whether
the amplification path ran, and whether the over-one warning fired.  The
function throws nowhere. -/
structure VolumeResult where
  warnedNegative : Bool
  storedVolume : ℚ
  elementVolume : ℚ
  amplified : Bool
  warnedOverOne : Bool
deriving DecidableEq, Repr

/-- `Media.setVolume`: warns for negative input, stores the raw value,
clamps the element gain to `[0, 1]`, and for values above 1 either
amplifies (when allowed in preview) or warns. -/
def setVolume (allowAmplification : Bool) (volume : ℚ) : VolumeResult :=
  let warnedNegative := decide (volume < 0)
  let elementVolume := min (max volume 0) 1
  if 1 < volume then
    if allowAmplification then
      ⟨warnedNegative, volume, elementVolume, true, false⟩
    else
      ⟨warnedNegative, volume, elementVolume, false, true⟩
  else ⟨warnedNegative, volume, elementVolume, false, false⟩

/-- The `while (rate > 100)` loop of `calculateAtempoFilters`
(generate-audio.ts lines 108-113): each pushed `atempo=100.0` filter
stage is embedded by its numeric value 100; returns the pushed stages
and the remaining rate. -/
def pushHundreds (q : ℚ) : List ℚ × ℚ :=
  if h : 100 < q then
    (100 :: (pushHundreds (q / 100)).1, (pushHundreds (q / 100)).2)
  else ([], q)
termination_by (⌊q⌋).toNat
decreasing_by
  all_goals
    have h1 : (1 : ℚ) ≤ q / 100 := by
      rw [le_div_iff (by norm_num : (0 : ℚ) < 100)]
      linarith
    have h2 : q / 100 + 1 ≤ q := by linarith
    have hfl : ⌊q / 100⌋ + 1 ≤ ⌊q⌋ := by
      have hmono : ⌊q / 100 + 1⌋ ≤ ⌊q⌋ := Int.floor_le_floor h2
      rwa [Int.floor_add_one] at hmono
    have hpos : (1 : ℤ) ≤ ⌊q / 100⌋ := Int.le_floor.mpr (by exact_mod_cast h1)
    omega

/-- The `while (rate < 0.5)` loop of `calculateAtempoFilters`
(generate-audio.ts lines 120-124): each pushed `atempo=0.5` stage is
embedded by its value 1/2; returns the pushed stages and the remaining
rate.  For a non-positive rate the JavaScript loop never terminates, so
the recursion is guarded by `0 < q`; all claims stay in `0 < q`. -/
def pushHalves (q : ℚ) : List ℚ × ℚ :=
  if h : 0 < q ∧ q < 1/2 then
    ((1/2 : ℚ) :: (pushHalves (q * 2)).1, (pushHalves (q * 2)).2)
  else ([], q)
termination_by (⌊q⁻¹⌋).toNat
decreasing_by
  all_goals
    obtain ⟨h0, hh⟩ := h
    have hq2 : (2 : ℚ) < q⁻¹ := by
      rw [lt_inv_comm₀ (by norm_num : (0 : ℚ) < 2) h0]
      linarith
    have hinv : (q * 2)⁻¹ = q⁻¹ / 2 := by
      rw [mul_inv, div_eq_mul_inv]
    have h2 : q⁻¹ / 2 + 1 ≤ q⁻¹ := by linarith
    have hfl : ⌊q⁻¹ / 2⌋ + 1 ≤ ⌊q⁻¹⌋ := by
      have hmono : ⌊q⁻¹ / 2 + 1⌋ ≤ ⌊q⁻¹⌋ := Int.floor_le_floor h2
      rwa [Int.floor_add_one] at hmono
    have hpos : (1 : ℤ) ≤ ⌊q⁻¹ / 2⌋ := Int.le_floor.mpr (by push_cast; linarith)
    rw [hinv]
    omega

/-- `calculateAtempoFilters` (generate-audio.ts lines 105-131): the
chain of `atempo` stages for a playback rate, each stage embedded by its
numeric value: hundreds-stages then the remaining rate when above 1,
then halving stages then the remaining rate when below 1. -/
def calculateAtempoFilters (playbackRate : ℚ) : List ℚ :=
  (pushHundreds playbackRate).1 ++
    (if 1 < (pushHundreds playbackRate).2 then [(pushHundreds playbackRate).2]
      else []) ++
  ((pushHalves playbackRate).1 ++
    (if (pushHalves playbackRate).2 < 1 then [(pushHalves playbackRate).2]
      else []))

/-- The media type carried by a per-frame asset record. -/
inductive AssetType where
  | video
  | audio
deriving DecidableEq, Repr

/-- One per-frame asset-presence record (`AssetInfo` from `@twick/core`),
with the fields `getAssetPlacement` reads. -/
structure AssetInfo where
  key : String
  src : String
  type : AssetType
  currentTime : ℚ
  playbackRate : ℚ
  volume : ℚ
deriving DecidableEq, Repr

/-- `MediaAsset` (generate-audio.ts lines 27-38).  Frame indices are
naturals; the remaining numeric fields are rationals. -/
structure MediaAsset where
  key : String
  src : String
  type : AssetType
  startInVideo : ℕ
  endInVideo : ℕ
  duration : ℕ
  playbackRate : ℚ
  volume : ℚ
  trimLeftInSeconds : ℚ
  durationInSeconds : ℚ
deriving DecidableEq, Repr

/-- The mutable state of the scan in `getAssetPlacement`: the `assets`
list and the `assetTimeMap` from key to (start, end) `currentTime`
anchors, both in insertion order. -/
structure ScanState where
  assets : List MediaAsset
  timeMap : List (String × ℚ × ℚ)
deriving DecidableEq, Repr

/-- `assetTimeMap.get(key)`. -/
def mapLookup (m : List (String × ℚ × ℚ)) (k : String) : Option (ℚ × ℚ) :=
  match m with
  | [] => Option.none
  | (k0, se) :: rest => if k0 = k then some se else mapLookup rest k

/-- `timeInfo.end = asset.currentTime; assetTimeMap.set(...)`: updates
the end anchor of the first entry with the given key. -/
def updateMapEnd (m : List (String × ℚ × ℚ)) (k : String) (ct : ℚ) :
    List (String × ℚ × ℚ) :=
  match m with
  | [] => []
  | (k0, se) :: rest =>
    if k0 = k then (k0, se.1, ct) :: rest
    else (k0, se) :: updateMapEnd rest k ct

/-- `existingAsset.endInVideo = frame`: updates the first asset with the
given key (the list never holds two assets with one key). -/
def updateAssetEnd (l : List MediaAsset) (k : String) (frame : ℕ) :
    List MediaAsset :=
  match l with
  | [] => []
  | a :: rest =>
    if a.key = k then { a with endInVideo := frame } :: rest
    else a :: updateAssetEnd rest k frame

/-- The body of the scan loop of `getAssetPlacement` (generate-audio.ts
lines 48-82) for one record seen at the given frame index: a fresh key
opens a new asset and map entry with placeholder durations; a known key
updates the end anchors. -/
def processAsset (frame : ℕ) (st : ScanState) (a : AssetInfo) : ScanState :=
  match mapLookup st.timeMap a.key with
  | Option.none =>
    { assets := st.assets ++
        [{ key := a.key
           src := a.src
           type := a.type
           startInVideo := frame
           endInVideo := frame
           duration := 0
           playbackRate := a.playbackRate
           volume := a.volume
           trimLeftInSeconds := a.currentTime
           durationInSeconds := 0 }]
      timeMap := st.timeMap ++ [(a.key, a.currentTime, a.currentTime)] }
  | some _ =>
    { assets := updateAssetEnd st.assets a.key frame
      timeMap := updateMapEnd st.timeMap a.key a.currentTime }

/-- The per-frame records flattened in scan order, each paired with its
frame index: the iteration order of the two nested loops. -/
def occList (frames : List (List AssetInfo)) : List (ℕ × AssetInfo) :=
  frames.enum.flatMap fun p => p.2.map fun a => (p.1, a)

/-- The two nested scan loops of `getAssetPlacement` as a fold over the
flattened record stream. -/
def scanAssets (frames : List (List AssetInfo)) : ScanState :=
  (occList frames).foldl (fun st p => processAsset p.1 st p.2) ⟨[], []⟩

/-- The final pass of `getAssetPlacement` (lines 84-100): fills in
`durationInSeconds` from the recorded anchors divided by the asset's
playback rate, and `duration` from the frame span. -/
def finalizeAsset (m : List (String × ℚ × ℚ)) (a : MediaAsset) : MediaAsset :=
  let a1 := match mapLookup m a.key with
    | some se => { a with durationInSeconds := (se.2 - se.1) / a.playbackRate }
    | Option.none => a
  { a1 with duration := a1.endInVideo - a1.startInVideo + 1 }

/-- `getAssetPlacement` (generate-audio.ts lines 42-103). -/
def getAssetPlacement (frames : List (List AssetInfo)) : List MediaAsset :=
  ((scanAssets frames).assets).map (finalizeAsset (scanAssets frames).timeMap)

/-- The occurrences of one key in the flattened record stream. -/
def keyOcc (k : String) (o : List (ℕ × AssetInfo)) : List (ℕ × AssetInfo) :=
  o.filter fun p => p.2.key = k

/-- The effective duration used by `prepareAudio`'s trim computation
(generate-audio.ts lines 153-159): `durationInSeconds`, falling back to
`duration / fps` below the 0.1-second epsilon. -/
def effectiveDurationInSeconds (a : MediaAsset) (fps : ℚ) : ℚ :=
  if a.durationInSeconds < 1/10 then (a.duration : ℚ) / fps
  else a.durationInSeconds

end Twick

namespace Twick

/-- C1: whenever the playback state is `Playing` or `Presenting`,
`seekFunction` returns the native fast-seek path regardless of the
decoder override and of the detected file type; and in `Rendering` state
with the explicit override `ffmpeg` it returns the out-of-process ffmpeg
extraction path regardless of the detected file type. -/
theorem seekFunction_playing_and_rendering_ffmpeg :
    ∀ (dec : Option Decoder) (ft : FileType),
      seekFunction .Playing dec ft = .fastSeekedVideo ∧
      seekFunction .Presenting dec ft = .fastSeekedVideo ∧
      seekFunction .Rendering (some .ffmpeg) ft = .ffmpegSeekedVideo := by
  decide

/-- C2, counterexample: for the negative time `t = -1/2` with
`loop = true` and duration `d = 2`, `clampTime` returns 0, which is not
the representative of `t` modulo `d` lying in `[0, d]` (that would be
`3/2`): JavaScript `%` keeps the dividend's sign, and the subsequent
clamp sends the negative remainder to 0. -/
theorem clampTime_neg_loop_counterexample :
    clampTime true 2 (-1/2) = 0 ∧
    clampTime true 2 (-1/2) ≠ 3/2 ∧
    ∀ k : ℤ, clampTime true 2 (-1/2) - (-1/2) ≠ k * 2 := by
  have hdiv : ((-1/2 : ℚ)) / 2 = -1/4 := by norm_num
  have hc : (⌈(-1/4 : ℚ)⌉ : ℤ) = 0 := by
    rw [Int.ceil_eq_zero_iff, Set.mem_Ioc]
    norm_num
  have hj : jsMod (-1/2 : ℚ) 2 = -1/2 := by
    rw [jsMod, rtrunc, hdiv, if_neg (by norm_num : ¬ (0 : ℚ) ≤ -1/4), hc]
    norm_num
  have hct : clampTime true 2 (-1/2) = clamp 0 2 (jsMod (-1/2) 2) := rfl
  have h : clampTime true 2 (-1/2) = 0 := by
    rw [hct, hj, clamp, max_eq_left (by norm_num : (-1/2 : ℚ) ≤ 0),
      min_eq_right (by norm_num : (0 : ℚ) ≤ 2)]
  refine ⟨h, by rw [h]; norm_num, ?_⟩
  intro k hk
  rw [h] at hk
  have h4 : (1 : ℚ) = ((4 * k : ℤ) : ℚ) := by push_cast; linarith
  have h1 : (1 : ℤ) = 4 * k := by exact_mod_cast h4
  omega

/-- C2, amended: for every duration `d ≥ 0` and every time `t`,
`clampTime` with `loop = false` returns a value in `[0, d]` (no `%` is
evaluated on this path).  For every positive duration `d > 0` with
`loop = true` the result lies in `[0, d]` and, for `t ≥ 0`, equals
`t - d * ⌊t/d⌋`, the representative of `t` modulo `d` in `[0, d)`; for
negative `t`, however, it returns 0 (not the modular representative).
At `d = 0` with `loop = true` (reachable, since `getDuration` reports 0
when the element is unavailable) the code computes `t % 0`, which is the
floating-point `NaN` and propagates through the clamp; `NaN` lies
outside the rational embedding, so nothing is claimed there. -/
theorem clampTime_spec (d t : ℚ) :
    (0 ≤ d → 0 ≤ clampTime false d t ∧ clampTime false d t ≤ d) ∧
    (0 < d →
      (0 ≤ clampTime true d t ∧ clampTime true d t ≤ d) ∧
      (0 ≤ t → clampTime true d t = t - d * ⌊t / d⌋) ∧
      (t < 0 → clampTime true d t = 0)) := by
  constructor
  · intro hd
    exact ⟨le_min hd (le_max_left 0 _), min_le_left _ _⟩
  · intro hdpos
    refine ⟨⟨le_min hdpos.le (le_max_left 0 _), min_le_left _ _⟩, ?_, ?_⟩
    · intro ht
      have hq : 0 ≤ t / d := div_nonneg ht hdpos.le
      have hfr : t - d * ⌊t / d⌋ = d * Int.fract (t / d) := by
        rw [Int.fract]
        field_simp
      have h0 : 0 ≤ t - d * ⌊t / d⌋ := by
        rw [hfr]
        exact mul_nonneg hdpos.le (Int.fract_nonneg _)
      have h1 : t - d * ⌊t / d⌋ ≤ d := by
        rw [hfr]
        calc d * Int.fract (t / d) ≤ d * 1 :=
              mul_le_mul_of_nonneg_left (Int.fract_lt_one _).le hdpos.le
          _ = d := mul_one d
      have hmod : jsMod t d = t - d * ⌊t / d⌋ := by
        simp [jsMod, rtrunc, hq]
      have hct : clampTime true d t = clamp 0 d (jsMod t d) := rfl
      rw [hct, hmod, clamp, max_eq_right h0, min_eq_right h1]
    · intro ht
      have hct : clampTime true d t = clamp 0 d (jsMod t d) := rfl
      have hq : t / d < 0 := div_neg_of_neg_of_pos ht hdpos
      have hle : jsMod t d ≤ 0 := by
        have hceil : t / d ≤ (⌈t / d⌉ : ℚ) := Int.le_ceil _
        have hmul : t ≤ d * ⌈t / d⌉ := by
          rw [mul_comm]
          calc t = t / d * d := by field_simp
            _ ≤ (⌈t / d⌉ : ℚ) * d := by
                exact mul_le_mul_of_nonneg_right hceil hdpos.le
        simp only [jsMod, rtrunc, if_neg (not_le.mpr hq)]
        linarith
      rw [hct, clamp, max_eq_left hle, min_eq_right hdpos.le]

/-- C10: `getDuration` is total: it returns 0 when the media element is
unavailable; on iOS (no navigator means not iOS; otherwise the user
agent matches iPad/iPhone/iPod or the platform is MacIntel with more
than one touch point) it returns the dummy duration 2 for every video or
audio element regardless of the native duration, and `clampTime` and
`completion` are then computed against 2; otherwise it returns the
native duration. -/
theorem getDuration_total_spec (env : MediaEnv) :
    (env.element = none → getDuration env = 0) ∧
    (∀ k d, env.element = some (k, d) → isIOS env.nav = true →
      (k = MediaKind.video ∨ k = MediaKind.audio) →
      getDuration env = 2 ∧
      (∀ loop t, clampTime loop (getDuration env) t = clampTime loop 2 t) ∧
      (∀ loop t, completion env loop t = clampTime loop 2 t / 2)) ∧
    (∀ k d, env.element = some (k, d) → isIOS env.nav = false →
      getDuration env = d) ∧
    isIOS Option.none = false := by
  refine ⟨?_, ?_, ?_, rfl⟩
  · intro h
    simp [getDuration, h]
  · intro k d he hios hk
    have h2 : getDuration env = 2 := by
      rcases hk with h | h <;> subst h <;> simp [getDuration, he, hios]
    exact ⟨h2, fun loop t => by rw [h2],
      fun loop t => by rw [completion, h2]⟩
  · intro k d he hios
    simp [getDuration, he, hios]

/-- C10, witness: an iPad navigator with a video element of native
duration 5 reports the dummy duration 2, against which clamping is
computed. -/
theorem getDuration_total_spec_witness :
    getDuration ⟨some ⟨"iPad", "Win32", 0⟩, some (MediaKind.video, 5)⟩ = 2 ∧
    (∀ loop t,
      clampTime loop
        (getDuration ⟨some ⟨"iPad", "Win32", 0⟩, some (MediaKind.video, 5)⟩) t =
      clampTime loop 2 t) := by
  have h :=
    (getDuration_total_spec
      ⟨some ⟨"iPad", "Win32", 0⟩, some (MediaKind.video, 5)⟩).2.1
      MediaKind.video 5 rfl (by decide) (Or.inl rfl)
  exact ⟨h.1, h.2.1⟩

/-- Normal form of `seekedVideo`: the rate is applied and the element
paused in every branch; the clock is written exactly when the clamped
time differs from `lastTime` and the element is ready. -/
lemma seekedVideo_eq (s : MediaState) :
    seekedVideo s =
      if s.lastTime = clampTimeOf s then
        ({ s with elementRate := s.playbackRate, paused := true }, false)
      else if s.readyState < 2 then
        ({ s with elementRate := s.playbackRate, paused := true }, false)
      else
        ({ s with
            elementRate := s.playbackRate
            paused := true
            currentTime := clampTimeOf s
            lastTime := clampTimeOf s }, true) := by
  rcases s with ⟨playing, time, loop, duration, rate, erate, lastT, curT, paused, ready⟩
  by_cases hp : paused = false <;>
    simp [seekedVideo, setCurrentTime, hp]

/-- C7: calling the blocking seek path twice in a row with an unchanged
time issues at most one native seek; once the first call has applied the
clamped time to the native handle (recording it in `lastTime`), the
second call is a no-op: it returns the state unchanged and performs no
native write. -/
theorem seekedVideo_idempotent (s : MediaState) :
    ¬ ((seekedVideo s).2 = true ∧ (seekedVideo (seekedVideo s).1).2 = true) ∧
    ((seekedVideo s).2 = true →
      seekedVideo (seekedVideo s).1 = ((seekedVideo s).1, false)) := by
  have key : (seekedVideo s).2 = true →
      seekedVideo (seekedVideo s).1 = ((seekedVideo s).1, false) := by
    intro h1
    by_cases hl : s.lastTime = clampTimeOf s
    · rw [seekedVideo_eq, if_pos hl] at h1
      simp at h1
    · by_cases hr : s.readyState < 2
      · rw [seekedVideo_eq, if_neg hl, if_pos hr] at h1
        simp at h1
      · have hs : seekedVideo s =
            ({ s with
              elementRate := s.playbackRate
              paused := true
              currentTime := clampTimeOf s
              lastTime := clampTimeOf s }, true) := by
          rw [seekedVideo_eq, if_neg hl, if_neg hr]
        rw [hs]
        rw [seekedVideo_eq]
        simp [clampTimeOf]
  refine ⟨fun h => ?_, key⟩
  rw [key h.1] at h
  simp at h

/-- C7, witness: a concrete state whose first blocking seek writes the
native clock; the repeated call is a no-op. -/
theorem seekedVideo_idempotent_witness :
    (seekedVideo ⟨false, 3, false, 10, 1, 1, -1, 0, true, 2⟩).2 = true ∧
    seekedVideo (seekedVideo ⟨false, 3, false, 10, 1, 1, -1, 0, true, 2⟩).1 =
      ((seekedVideo ⟨false, 3, false, 10, 1, 1, -1, 0, true, 2⟩).1, false) := by
  have hct : clampTimeOf ⟨false, 3, false, 10, 1, 1, -1, 0, true, 2⟩ = 3 := by
    simp [clampTimeOf, clampTime, clamp] <;> norm_num
  have h1 : (seekedVideo ⟨false, 3, false, 10, 1, 1, -1, 0, true, 2⟩).2 = true := by
    rw [seekedVideo_eq, if_neg (by rw [hct]; norm_num), if_neg (by norm_num)]
  exact ⟨h1, (seekedVideo_idempotent ⟨false, 3, false, 10, 1, 1, -1, 0, true, 2⟩).2 h1⟩

/-- C6, counterexample: a video node that is playing (`playing = true`)
with its virtual time clamped exactly to the duration: the clamped time
(2) differs from `lastTime` (0), the drift |3/2 - 2| = 1/2 is at or
below the one-second tolerance, yet the fast seek path mutates the
native clock by direct assignment (the code's effective-playing
condition `time < duration` fails, so the `else` branch writes
`video.currentTime = time`). -/
theorem fastSeekedVideo_below_tolerance_counterexample :
    (MediaState.playing ⟨true, 2, false, 2, 1, 1, 0, 3/2, false, 2⟩ = true) ∧
    clampTimeOf ⟨true, 2, false, 2, 1, 1, 0, 3/2, false, 2⟩ ≠
      MediaState.lastTime ⟨true, 2, false, 2, 1, 1, 0, 3/2, false, 2⟩ ∧
    |MediaState.currentTime ⟨true, 2, false, 2, 1, 1, 0, 3/2, false, 2⟩ -
      clampTimeOf ⟨true, 2, false, 2, 1, 1, 0, 3/2, false, 2⟩| ≤ 1 ∧
    (fastSeekedVideo ⟨true, 2, false, 2, 1, 1, 0, 3/2, false, 2⟩).2 =
      SeekAction.assign ∧
    (fastSeekedVideo ⟨true, 2, false, 2, 1, 1, 0, 3/2, false, 2⟩).1.currentTime ≠
      MediaState.currentTime ⟨true, 2, false, 2, 1, 1, 0, 3/2, false, 2⟩ := by
  have hct : clampTimeOf ⟨true, 2, false, 2, 1, 1, 0, 3/2, false, 2⟩ = 2 := by
    simp [clampTimeOf, clampTime, clamp]
  have habs : |(3/2 : ℚ) - 2| = 1/2 := by
    have h : (3/2 : ℚ) - 2 = -(1/2) := by norm_num
    rw [h, abs_neg, abs_of_nonneg (by norm_num : (0 : ℚ) ≤ 1/2)]
  have habs2 : |(1/2 : ℚ)| = 1/2 := abs_of_nonneg (by norm_num)
  refine ⟨rfl, by rw [hct]; norm_num,
    by rw [hct]; show |(3/2 : ℚ) - 2| ≤ 1; rw [habs]; norm_num, ?_, ?_⟩ <;>
    norm_num [fastSeekedVideo, setCurrentTime, hct, habs, habs2,
      apply_ite MediaState.currentTime]

/-- C6, amended: when the clamped virtual time differs from `lastTime`,
the fast seek paths call `setCurrentTime` exactly when the drift exceeds
the per-type tolerance (1 second for video, 0.3 for audio; for audio
additionally the raw time must be below the duration, else the path
pauses and returns early).  The at-or-below-tolerance branch leaves the
native clock untouched provided additionally the code's
effective-playing condition holds: the node is playing, the clamped time
is strictly below the native duration and the playback rate is positive;
without those, the clock is directly assigned even below tolerance. -/
theorem fastSeek_tolerance_spec (s : MediaState) :
    (clampTimeOf s ≠ s.lastTime →
      (((fastSeekedVideo s).2 = SeekAction.forcedSeek ↔
          1 < |s.currentTime - clampTimeOf s|) ∧
        (s.playing = true → clampTimeOf s < s.duration → 0 < s.playbackRate →
          |s.currentTime - clampTimeOf s| ≤ 1 →
          (fastSeekedVideo s).2 = SeekAction.none ∧
          (fastSeekedVideo s).1.currentTime = s.currentTime))) ∧
    (s.time < s.duration → clampTimeOf s ≠ s.lastTime →
      (((fastSeekedAudio s).2 = SeekAction.forcedSeek ↔
          3/10 < |s.currentTime - clampTimeOf s|) ∧
        (s.playing = true → clampTimeOf s < s.duration → 0 < s.playbackRate →
          |s.currentTime - clampTimeOf s| ≤ 3/10 →
          (fastSeekedAudio s).2 = SeekAction.none ∧
          (fastSeekedAudio s).1.currentTime = s.currentTime))) := by
  rcases s with ⟨playing, time, loop, duration, rate, erate, lastT, curT, paused, ready⟩
  simp only [clampTimeOf] at *
  constructor
  · intro hne
    have hne' : ¬ (lastT = clampTime loop duration time) := fun h => hne h.symm
    constructor
    · by_cases hd : 1 < |curT - clampTime loop duration time|
      · simp [fastSeekedVideo, setCurrentTime, clampTimeOf, hne', hd,
          apply_ite MediaState.currentTime]
      · by_cases hb : ((playing = true ∧ clampTime loop duration time < duration) ∧
            0 < rate) <;>
          by_cases hp : paused <;>
          simp [fastSeekedVideo, setCurrentTime, clampTimeOf, hne', hd, hb, hp,
            apply_ite MediaState.currentTime] <;>
          split_ifs <;> simp
    · intro hplay hts hrate hdrift
      have hnd : ¬ (1 : ℚ) < |curT - clampTime loop duration time| :=
        not_lt.mpr hdrift
      by_cases hp : paused <;>
        simp [fastSeekedVideo, setCurrentTime, clampTimeOf, hne', hnd, hplay,
          hts, hrate, hp, apply_ite MediaState.currentTime]
  · intro htd hne
    have hne' : ¬ (lastT = clampTime loop duration time) := fun h => hne h.symm
    constructor
    · by_cases hd : 3/10 < |curT - clampTime loop duration time|
      · simp [fastSeekedAudio, setCurrentTime, clampTimeOf, htd, hne', hd,
          apply_ite MediaState.currentTime]
      · by_cases hb : ((playing = true ∧ clampTime loop duration time < duration) ∧
            0 < rate) <;>
          by_cases hp : paused <;>
          simp [fastSeekedAudio, setCurrentTime, clampTimeOf, htd, hne', hd, hb, hp,
            apply_ite MediaState.currentTime] <;>
          split_ifs <;> simp
    · intro hplay hts hrate hdrift
      have hnd : ¬ (3/10 : ℚ) < |curT - clampTime loop duration time| :=
        not_lt.mpr hdrift
      by_cases hp : paused <;>
        simp [fastSeekedAudio, setCurrentTime, clampTimeOf, htd, hne', hnd,
          hplay, hts, hrate, hp, apply_ite MediaState.currentTime]

/-- C6, witness: a playing video node with drift 1/2 (at most the
tolerance) performs no native mutation, and a playing audio node with
drift 1/10 (at most 0.3) likewise. -/
theorem fastSeek_tolerance_spec_witness :
    (fastSeekedVideo ⟨true, 1, false, 10, 1, 1, 0, 3/2, false, 2⟩).2 =
      SeekAction.none ∧
    (fastSeekedAudio ⟨true, 1, false, 10, 1, 1, 0, 11/10, false, 2⟩).2 =
      SeekAction.none := by
  have hctv : clampTimeOf ⟨true, 1, false, 10, 1, 1, 0, 3/2, false, 2⟩ = 1 := by
    simp [clampTimeOf, clampTime, clamp]
  have hcta : clampTimeOf ⟨true, 1, false, 10, 1, 1, 0, 11/10, false, 2⟩ = 1 := by
    simp [clampTimeOf, clampTime, clamp]
  refine ⟨?_, ?_⟩
  · refine (((fastSeek_tolerance_spec
      ⟨true, 1, false, 10, 1, 1, 0, 3/2, false, 2⟩).1 ?_).2
      rfl ?_ (by norm_num) ?_).1
    · rw [hctv]; norm_num
    · rw [hctv]; norm_num
    · rw [hctv]
      show |(3/2 : ℚ) - 1| ≤ 1
      rw [abs_of_nonneg (by norm_num : (0 : ℚ) ≤ 3/2 - 1)]
      norm_num
  · refine (((fastSeek_tolerance_spec
      ⟨true, 1, false, 10, 1, 1, 0, 11/10, false, 2⟩).2 (by norm_num) ?_).2
      rfl ?_ (by norm_num) ?_).1
    · rw [hcta]; norm_num
    · rw [hcta]; norm_num
    · rw [hcta]
      show |(11/10 : ℚ) - 1| ≤ 3/10
      rw [abs_of_nonneg (by norm_num : (0 : ℚ) ≤ 11/10 - 1)]
      norm_num

/-- Lookup distributes over map append: the left map wins when it holds
the key. -/
lemma mapLookup_append (m1 m2 : List (String × ℚ × ℚ)) (k : String) :
    mapLookup (m1 ++ m2) k =
      match mapLookup m1 k with
      | some se => some se
      | Option.none => mapLookup m2 k := by
  induction m1 with
  | nil => simp [mapLookup]
  | cons h t ih =>
    obtain ⟨k0, se⟩ := h
    by_cases hk : k0 = k <;> simp [mapLookup, hk, ih]

/-- Updating the end anchor of one key rewrites that key's lookup and
leaves the others. -/
lemma mapLookup_updateMapEnd (m : List (String × ℚ × ℚ)) (ku : String)
    (ct : ℚ) (k : String) :
    mapLookup (updateMapEnd m ku ct) k =
      if k = ku then (mapLookup m k).map (fun se => (se.1, ct))
      else mapLookup m k := by
  induction m with
  | nil => by_cases h : k = ku <;> simp [mapLookup, updateMapEnd, h]
  | cons h t ih =>
    obtain ⟨k0, se⟩ := h
    by_cases h1 : k0 = ku <;> by_cases h2 : k0 = k <;> by_cases h3 : k = ku <;>
      simp_all [mapLookup, updateMapEnd]

/-- Ending an asset of a different key does not change a key's filtered
view of the assets list. -/
lemma filter_updateAssetEnd_ne (l : List MediaAsset) (ku : String)
    (frame : ℕ) (k : String) (hk : ¬ k = ku) :
    (updateAssetEnd l ku frame).filter (fun a => a.key = k) =
      l.filter (fun a => a.key = k) := by
  have hk' : ¬ ku = k := fun hc => hk hc.symm
  induction l with
  | nil => rfl
  | cons a rest ih =>
    by_cases h1 : a.key = ku
    · have h2 : ¬ a.key = k := by
        rw [h1]
        intro hc
        exact hk hc.symm
      simp [updateAssetEnd, h1, List.filter_cons, h2, hk, hk']
    · by_cases h2 : a.key = k <;>
        simp [updateAssetEnd, h1, List.filter_cons, h2, ih, hk, hk']

/-- Ending an asset rewrites the head of that key's filtered view. -/
lemma filter_updateAssetEnd_eq (l : List MediaAsset) (ku : String)
    (frame : ℕ) :
    (updateAssetEnd l ku frame).filter (fun a => a.key = ku) =
      match l.filter (fun a => a.key = ku) with
      | [] => []
      | a :: rest => { a with endInVideo := frame } :: rest := by
  induction l with
  | nil => rfl
  | cons a rest ih =>
    by_cases h1 : a.key = ku <;>
      simp [updateAssetEnd, h1, List.filter_cons, ih]

/-- The invariant tying the scan state of `getAssetPlacement` to the
processed prefix of the record stream: keys absent from the prefix are
absent from the state; each present key holds exactly one asset, built
from its first occurrence and ended at its last, with the map holding
the first/last time anchors and the durations still placeholders. -/
def scanInv (o : List (ℕ × AssetInfo)) (st : ScanState) : Prop :=
  ∀ k : String,
    (keyOcc k o = [] →
      mapLookup st.timeMap k = Option.none ∧
      st.assets.filter (fun a => a.key = k) = []) ∧
    (∀ p0 l, keyOcc k o = p0 :: l →
      ∃ p1, (p0 :: l).getLast? = some p1 ∧
        mapLookup st.timeMap k =
          some (p0.2.currentTime, p1.2.currentTime) ∧
        st.assets.filter (fun a => a.key = k) =
          [⟨k, p0.2.src, p0.2.type, p0.1, p1.1, 0, p0.2.playbackRate,
            p0.2.volume, p0.2.currentTime, 0⟩])

/-- The scan of `getAssetPlacement` establishes the invariant on any
record stream. -/
lemma scanAssets_inv (o : List (ℕ × AssetInfo)) :
    scanInv o (o.foldl (fun st p => processAsset p.1 st p.2) ⟨[], []⟩) := by
  induction o using List.reverseRecOn with
  | nil =>
    intro k
    exact ⟨fun _ => ⟨rfl, rfl⟩, fun p0 l h => by simp [keyOcc] at h⟩
  | append_singleton o p ih =>
    rw [List.foldl_append, List.foldl_cons, List.foldl_nil]
    intro k
    have hko : keyOcc k (o ++ [p]) =
        keyOcc k o ++ (if p.2.key = k then [p] else []) := by
      rw [keyOcc, List.filter_append]
      by_cases hkey : p.2.key = k <;> simp [keyOcc, hkey]
    rcases hm : mapLookup
        (o.foldl (fun st p => processAsset p.1 st p.2) ⟨[], []⟩).timeMap
        p.2.key with _ | se
    · -- fresh key: new asset and map entry appended
      rw [processAsset, hm]
      by_cases hkey : p.2.key = k
      · have hempty : keyOcc k o = [] := by
          cases hc : keyOcc k o with
          | nil => rfl
          | cons p0 l =>
            exfalso
            obtain ⟨p1, -, hmap, -⟩ := (ih k).2 p0 l hc
            rw [hkey, hmap] at hm
            exact Option.noConfusion hm
        obtain ⟨hmnone, hfnil⟩ := (ih k).1 hempty
        constructor
        · intro hnil
          rw [hko, hempty, if_pos hkey] at hnil
          exact absurd hnil (by simp)
        · intro p0 l hpl
          rw [hko, hempty, if_pos hkey] at hpl
          have hpl' : p = p0 ∧ [] = l := by simpa using hpl
          obtain ⟨hp0, hl⟩ := hpl'
          subst hp0
          subst hl
          refine ⟨p, rfl, ?_, ?_⟩
          · rw [mapLookup_append, hmnone]
            simp [mapLookup, hkey]
          · rw [List.filter_append, hfnil, List.nil_append,
              List.filter_cons]
            simp [hkey]
      · constructor
        · intro hnil
          rw [hko, if_neg hkey] at hnil
          rw [List.append_nil] at hnil
          obtain ⟨hmnone, hfnil⟩ := (ih k).1 hnil
          constructor
          · rw [mapLookup_append, hmnone]
            simp [mapLookup, hkey]
          · rw [List.filter_append, hfnil, List.nil_append,
              List.filter_cons]
            simp [hkey]
        · intro p0 l hpl
          rw [hko, if_neg hkey, List.append_nil] at hpl
          obtain ⟨p1, hlast, hmap, hfil⟩ := (ih k).2 p0 l hpl
          refine ⟨p1, hlast, ?_, ?_⟩
          · rw [mapLookup_append, hmap]
          · rw [List.filter_append, hfil, List.filter_cons]
            simp [hkey]
    · -- known key: end anchors updated
      rw [processAsset, hm]
      by_cases hkey : p.2.key = k
      · subst hkey
        have hne : keyOcc p.2.key o ≠ [] := by
          intro hc
          obtain ⟨hmnone, -⟩ := (ih p.2.key).1 hc
          rw [hmnone] at hm
          exact Option.noConfusion hm
        obtain ⟨p0, l, hpl⟩ := List.exists_cons_of_ne_nil hne
        obtain ⟨p1, hlast, hmap, hfil⟩ := (ih p.2.key).2 p0 l hpl
        constructor
        · intro hnil
          rw [hko, hpl, if_pos rfl] at hnil
          exact absurd hnil (by simp)
        · intro q0 m hqm
          rw [hko, hpl, if_pos rfl] at hqm
          have hq : q0 = p0 ∧ m = l ++ [p] := by simpa using hqm.symm
          obtain ⟨hq0, hmq⟩ := hq
          subst hq0
          subst hmq
          refine ⟨p, ?_, ?_, ?_⟩
          · rw [← List.cons_append, List.getLast?_concat]
          · rw [mapLookup_updateMapEnd, if_pos rfl, hmap]
            rfl
          · rw [filter_updateAssetEnd_eq, hfil]
      · constructor
        · intro hnil
          rw [hko, if_neg hkey, List.append_nil] at hnil
          obtain ⟨hmnone, hfnil⟩ := (ih k).1 hnil
          refine ⟨?_, ?_⟩
          · rw [mapLookup_updateMapEnd,
              if_neg (fun hc => hkey hc.symm), hmnone]
          · rw [filter_updateAssetEnd_ne _ _ _ _
              (fun hc => hkey hc.symm), hfnil]
        · intro p0 l hpl
          rw [hko, if_neg hkey, List.append_nil] at hpl
          obtain ⟨p1, hlast, hmap, hfil⟩ := (ih k).2 p0 l hpl
          refine ⟨p1, hlast, ?_, ?_⟩
          · rw [mapLookup_updateMapEnd,
              if_neg (fun hc => hkey hc.symm), hmap]
          · rw [filter_updateAssetEnd_ne _ _ _ _
              (fun hc => hkey hc.symm), hfil]

/-- `finalizeAsset` keeps the key. -/
lemma finalizeAsset_key (m : List (String × ℚ × ℚ)) (a : MediaAsset) :
    (finalizeAsset m a).key = a.key := by
  rw [finalizeAsset]
  cases hm : mapLookup m a.key <;> simp [hm]

/-- Every placed asset spans at least one frame. -/
lemma getAssetPlacement_duration_pos (frames : List (List AssetInfo))
    (a : MediaAsset) (h : a ∈ getAssetPlacement frames) : 1 ≤ a.duration := by
  rw [getAssetPlacement] at h
  obtain ⟨b, -, rfl⟩ := List.mem_map.mp h
  rw [finalizeAsset]
  cases hm : mapLookup (scanAssets frames).timeMap b.key <;> simp [hm]

/-- Unfolding of `pushHundreds` above 100. -/
lemma pushHundreds_pos {q : ℚ} (h : 100 < q) :
    pushHundreds q =
      (100 :: (pushHundreds (q / 100)).1, (pushHundreds (q / 100)).2) := by
  rw [pushHundreds.eq_def, dif_pos h]

/-- Unfolding of `pushHundreds` at or below 100. -/
lemma pushHundreds_neg {q : ℚ} (h : ¬ 100 < q) : pushHundreds q = ([], q) := by
  rw [pushHundreds.eq_def, dif_neg h]

/-- Unfolding of `pushHalves` below 1/2 (positive rate). -/
lemma pushHalves_pos {q : ℚ} (h : 0 < q ∧ q < 1/2) :
    pushHalves q =
      ((1/2 : ℚ) :: (pushHalves (q * 2)).1, (pushHalves (q * 2)).2) := by
  rw [pushHalves.eq_def, dif_pos h]

/-- Unfolding of `pushHalves` otherwise. -/
lemma pushHalves_neg {q : ℚ} (h : ¬ (0 < q ∧ q < 1/2)) :
    pushHalves q = ([], q) := by
  rw [pushHalves.eq_def, dif_neg h]

/-- Invariant of the hundreds loop: all stages are 100, the remaining
rate is at most 100 (and above 1 whenever the input was above 1), and
the product of stages times the remainder reconstructs the input. -/
lemma pushHundreds_spec (q : ℚ) :
    (∀ x ∈ (pushHundreds q).1, x = 100) ∧
    (pushHundreds q).2 ≤ 100 ∧
    ((pushHundreds q).1).prod * (pushHundreds q).2 = q ∧
    (1 < q → 1 < (pushHundreds q).2) := by
  induction q using pushHundreds.induct with
  | case1 q h ih =>
    rw [pushHundreds_pos h]
    obtain ⟨ih1, ih2, ih3, ih4⟩ := ih
    refine ⟨?_, ih2, ?_, ?_⟩
    · intro x hx
      rcases List.mem_cons.mp hx with h100 | hmem
      · exact h100
      · exact ih1 x hmem
    · have : (100 : ℚ) * (((pushHundreds (q / 100)).1).prod *
          (pushHundreds (q / 100)).2) = 100 * (q / 100) := by rw [ih3]
      calc (100 :: (pushHundreds (q / 100)).1).prod * (pushHundreds (q / 100)).2
          = 100 * (((pushHundreds (q / 100)).1).prod *
            (pushHundreds (q / 100)).2) := by
            rw [List.prod_cons]; ring
        _ = 100 * (q / 100) := this
        _ = q := by field_simp
    · intro _
      refine ih4 ?_
      rw [lt_div_iff (by norm_num : (0 : ℚ) < 100)]
      linarith
  | case2 q h =>
    rw [pushHundreds_neg h]
    exact ⟨by simp, not_lt.mp h, by simp, fun h1 => h1⟩

/-- Invariant of the halving loop: all stages are 1/2, the product of
stages times the remainder reconstructs the input, and for positive
input the remainder is at least 1/2 (and below 1 whenever the input was
below 1). -/
lemma pushHalves_spec (q : ℚ) :
    (∀ x ∈ (pushHalves q).1, x = 1/2) ∧
    ((pushHalves q).1).prod * (pushHalves q).2 = q ∧
    (0 < q → 1/2 ≤ (pushHalves q).2) ∧
    (q < 1 → (pushHalves q).2 < 1) := by
  induction q using pushHalves.induct with
  | case1 q h ih =>
    rw [pushHalves_pos h]
    obtain ⟨h0, hh⟩ := h
    obtain ⟨ih1, ih2, ih3, ih4⟩ := ih
    refine ⟨?_, ?_, ?_, ?_⟩
    · intro x hx
      rcases List.mem_cons.mp hx with hhalf | hmem
      · exact hhalf
      · exact ih1 x hmem
    · calc ((1/2 : ℚ) :: (pushHalves (q * 2)).1).prod * (pushHalves (q * 2)).2
          = (1/2 : ℚ) * (((pushHalves (q * 2)).1).prod *
            (pushHalves (q * 2)).2) := by
            rw [List.prod_cons]; ring
        _ = (1/2 : ℚ) * (q * 2) := by rw [ih2]
        _ = q := by ring
    · intro _
      exact ih3 (by linarith)
    · intro _
      exact ih4 (by linarith)
  | case2 q h =>
    rw [pushHalves_neg h]
    refine ⟨by simp, by simp, ?_, fun h1 => h1⟩
    intro h0
    rcases not_and_or.mp h with hc | hc
    · exact absurd h0 hc
    · exact not_lt.mp hc

/-- C3: `calculateAtempoFilters` yields `[100, 3/2]` for rate 150
(embedding the stage list `[atempo=100.0, atempo=1.5]`), `[1/2, 3/5]`
for rate 0.3 (`[atempo=0.5, atempo=0.6]`), and the empty list for rate
1; for every positive playback rate every stage lies in `[1/2, 100]` and
the product of the stages equals the rate (the empty list standing for
the identity product). -/
theorem calculateAtempoFilters_spec :
    calculateAtempoFilters 150 = [100, 3/2] ∧
    calculateAtempoFilters (3/10) = [1/2, 3/5] ∧
    calculateAtempoFilters 1 = [] ∧
    ∀ q : ℚ, 0 < q →
      (∀ x ∈ calculateAtempoFilters q, 1/2 ≤ x ∧ x ≤ 100) ∧
      (calculateAtempoFilters q).prod = q := by
  have e150 : (150 : ℚ) / 100 = 3/2 := by norm_num
  have h1 : pushHundreds (150 : ℚ) =
      (100 :: (pushHundreds ((150 : ℚ) / 100)).1,
        (pushHundreds ((150 : ℚ) / 100)).2) := pushHundreds_pos (by norm_num)
  have h2 : pushHundreds ((3 : ℚ)/2) = ([], 3/2) := pushHundreds_neg (by norm_num)
  have h3 : pushHalves (150 : ℚ) = ([], 150) := by
    refine pushHalves_neg ?_
    rintro ⟨-, hc⟩
    norm_num at hc
  have c1 : calculateAtempoFilters 150 = [100, 3/2] := by
    rw [calculateAtempoFilters, h1, e150, h2, h3]
    norm_num
  have h4 : pushHundreds ((3 : ℚ)/10) = ([], 3/10) :=
    pushHundreds_neg (by norm_num)
  have h5 : pushHalves ((3 : ℚ)/10) =
      ((1/2 : ℚ) :: (pushHalves ((3 : ℚ)/10 * 2)).1,
        (pushHalves ((3 : ℚ)/10 * 2)).2) :=
    pushHalves_pos (by constructor <;> norm_num)
  have e35 : (3 : ℚ)/10 * 2 = 3/5 := by norm_num
  have h6 : pushHalves ((3 : ℚ)/5) = ([], 3/5) := by
    refine pushHalves_neg ?_
    rintro ⟨-, hc⟩
    norm_num at hc
  have c2 : calculateAtempoFilters (3/10) = [1/2, 3/5] := by
    rw [calculateAtempoFilters, h4, h5, e35, h6]
    norm_num
  have h7 : pushHundreds (1 : ℚ) = ([], 1) := pushHundreds_neg (by norm_num)
  have h8 : pushHalves (1 : ℚ) = ([], 1) := by
    refine pushHalves_neg ?_
    rintro ⟨-, hc⟩
    norm_num at hc
  have c3 : calculateAtempoFilters 1 = [] := by
    rw [calculateAtempoFilters, h7, h8]
    norm_num
  refine ⟨c1, c2, c3, ?_⟩
  intro q hq
  obtain ⟨hh1, hh2, hh3, hh4⟩ := pushHundreds_spec q
  obtain ⟨hv1, hv2, hv3, hv4⟩ := pushHalves_spec q
  constructor
  · intro x hx
    rw [calculateAtempoFilters] at hx
    rcases List.mem_append.mp hx with hx12 | hx34
    · rcases List.mem_append.mp hx12 with hxa | hxb
      · have := hh1 x hxa
        subst this
        norm_num
      · rcases Decidable.em (1 < (pushHundreds q).2) with hc | hc
        · rw [if_pos hc] at hxb
          have hx' : x = (pushHundreds q).2 := List.mem_singleton.mp hxb
          subst hx'
          exact ⟨by linarith, hh2⟩
        · rw [if_neg hc] at hxb
          exact absurd hxb (List.not_mem_nil x)
    · rcases List.mem_append.mp hx34 with hxa | hxb
      · have := hv1 x hxa
        subst this
        norm_num
      · rcases Decidable.em ((pushHalves q).2 < 1) with hc | hc
        · rw [if_pos hc] at hxb
          have hx' : x = (pushHalves q).2 := List.mem_singleton.mp hxb
          subst hx'
          exact ⟨hv3 hq, by linarith⟩
        · rw [if_neg hc] at hxb
          exact absurd hxb (List.not_mem_nil x)
  · rw [calculateAtempoFilters]
    rcases lt_trichotomy q 1 with hlt | heq | hgt
    · have hhe : pushHundreds q = ([], q) :=
        pushHundreds_neg (by intro hc; linarith)
      have hr2 : ¬ 1 < (pushHundreds q).2 := by
        rw [hhe]
        simpa using hlt.le
      have hr4 : (pushHalves q).2 < 1 := hv4 hlt
      rw [if_neg hr2, if_pos hr4, hhe]
      simp [List.prod_append, hv2]
    · subst heq
      have hhe : pushHundreds (1 : ℚ) = ([], 1) :=
        pushHundreds_neg (by norm_num)
      have hve : pushHalves (1 : ℚ) = ([], 1) := by
        refine pushHalves_neg ?_
        rintro ⟨-, hc⟩
        norm_num at hc
      rw [hhe, hve]
      norm_num
    · have hve : pushHalves q = ([], q) := by
        refine pushHalves_neg ?_
        rintro ⟨-, hc⟩
        linarith
      have hr4 : ¬ (pushHalves q).2 < 1 := by
        rw [hve]
        simpa using hgt.le
      have hr2 : 1 < (pushHundreds q).2 := hh4 hgt
      rw [if_pos hr2, if_neg hr4, hve]
      simp [List.prod_append, hh3]

/-- C3, witness: the universally quantified part of the tempo theorem
instantiated at rate 7. -/
theorem calculateAtempoFilters_spec_witness :
    (0 : ℚ) < 7 ∧ (calculateAtempoFilters 7).prod = 7 := by
  exact ⟨by norm_num, (calculateAtempoFilters_spec.2.2.2 7 (by norm_num)).2⟩

/-- Filtering the placement by key is filtering the scan result and then
finalizing. -/
lemma getAssetPlacement_filter (frames : List (List AssetInfo)) (k : String) :
    (getAssetPlacement frames).filter (fun a => a.key = k) =
      ((scanAssets frames).assets.filter (fun a => a.key = k)).map
        (finalizeAsset (scanAssets frames).timeMap) := by
  rw [getAssetPlacement, List.filter_map]
  refine congrArg _ (List.filter_congr ?_)
  intro a _
  simp [Function.comp, finalizeAsset_key]

/-- C4: `getAssetPlacement` yields exactly one `MediaAsset` per distinct
key: for a key whose occurrence list (frame index, record) in scan order
is `p0 :: l` with last element `p1`, the unique asset with that key has
`startInVideo = p0.1` (first frame of appearance), `endInVideo = p1.1`
(last), `duration = endInVideo - startInVideo + 1`, `durationInSeconds =
(currentTime at last appearance - currentTime at first appearance) /
playbackRate`, and the remaining fields from the first record; keys that
never occur yield no asset.  In particular, for frames
`[[{key:a, t:0}], [{key:a, t:1/2}], [{key:a, t:1}]]` with playback rate
1 it yields one asset with `startInVideo = 0`, `endInVideo = 2`,
`duration = 3`, `durationInSeconds = 1`. -/
theorem getAssetPlacement_spec :
    (∀ (frames : List (List AssetInfo)) (k : String) (p0 : ℕ × AssetInfo)
        (l : List (ℕ × AssetInfo)),
      keyOcc k (occList frames) = p0 :: l →
      ∃ p1, (p0 :: l).getLast? = some p1 ∧
        (getAssetPlacement frames).filter (fun a => a.key = k) =
          [⟨k, p0.2.src, p0.2.type, p0.1, p1.1, p1.1 - p0.1 + 1,
            p0.2.playbackRate, p0.2.volume, p0.2.currentTime,
            (p1.2.currentTime - p0.2.currentTime) / p0.2.playbackRate⟩]) ∧
    (∀ (frames : List (List AssetInfo)) (k : String),
      keyOcc k (occList frames) = [] →
      (getAssetPlacement frames).filter (fun a => a.key = k) = []) ∧
    getAssetPlacement
        [[⟨"a", "s", AssetType.video, 0, 1, 1⟩],
          [⟨"a", "s", AssetType.video, 1/2, 1, 1⟩],
          [⟨"a", "s", AssetType.video, 1, 1, 1⟩]] =
      [⟨"a", "s", AssetType.video, 0, 2, 3, 1, 1, 0, 1⟩] := by
  refine ⟨?_, ?_, ?_⟩
  · intro frames k p0 l h
    obtain ⟨p1, hlast, hmap, hfil⟩ := (scanAssets_inv (occList frames) k).2 p0 l h
    have hmap' : mapLookup (scanAssets frames).timeMap k =
        some (p0.2.currentTime, p1.2.currentTime) := by
      rw [scanAssets]
      exact hmap
    have hfil' : (scanAssets frames).assets.filter (fun a => a.key = k) =
        [⟨k, p0.2.src, p0.2.type, p0.1, p1.1, 0, p0.2.playbackRate,
          p0.2.volume, p0.2.currentTime, 0⟩] := by
      rw [scanAssets]
      exact hfil
    refine ⟨p1, hlast, ?_⟩
    rw [getAssetPlacement_filter, hfil', List.map_singleton]
    simp [finalizeAsset, hmap']
  · intro frames k h
    obtain ⟨-, hfnil⟩ := (scanAssets_inv (occList frames) k).1 h
    have hfnil' : (scanAssets frames).assets.filter (fun a => a.key = k) = [] := by
      rw [scanAssets]
      exact hfnil
    rw [getAssetPlacement_filter, hfnil', List.map_nil]
  · have hscan : scanAssets
        [[⟨"a", "s", AssetType.video, 0, 1, 1⟩],
          [⟨"a", "s", AssetType.video, 1/2, 1, 1⟩],
          [⟨"a", "s", AssetType.video, 1, 1, 1⟩]] =
        ⟨[⟨"a", "s", AssetType.video, 0, 2, 0, 1, 1, 0, 0⟩],
          [("a", 0, 1)]⟩ := rfl
    rw [getAssetPlacement, hscan]
    norm_num [finalizeAsset, mapLookup]

/-- C4, witness: the per-key characterization instantiated on the
three-frame single-key example: the occurrence list is nonempty and the
filtered placement is the stated singleton. -/
theorem getAssetPlacement_spec_witness :
    ∃ p1,
      ((0, ⟨"a", "s", AssetType.video, 0, 1, 1⟩) ::
          [(1, (⟨"a", "s", AssetType.video, 1/2, 1, 1⟩ : AssetInfo)),
            (2, ⟨"a", "s", AssetType.video, 1, 1, 1⟩)]).getLast? = some p1 ∧
      (getAssetPlacement
          [[⟨"a", "s", AssetType.video, 0, 1, 1⟩],
            [⟨"a", "s", AssetType.video, 1/2, 1, 1⟩],
            [⟨"a", "s", AssetType.video, 1, 1, 1⟩]]).filter
        (fun a => a.key = "a") =
        [⟨"a", "s", AssetType.video, 0, p1.1, p1.1 - 0 + 1, 1, 1, 0,
          (p1.2.currentTime - 0) / 1⟩] := by
  exact getAssetPlacement_spec.1
    [[⟨"a", "s", AssetType.video, 0, 1, 1⟩],
      [⟨"a", "s", AssetType.video, 1/2, 1, 1⟩],
      [⟨"a", "s", AssetType.video, 1, 1, 1⟩]]
    "a" (0, ⟨"a", "s", AssetType.video, 0, 1, 1⟩)
    [(1, ⟨"a", "s", AssetType.video, 1/2, 1, 1⟩),
      (2, ⟨"a", "s", AssetType.video, 1, 1, 1⟩)] (by rfl)

/-- C5: for every asset produced by the placement scan whose
`durationInSeconds` is below the 0.1-second epsilon, the effective
duration used by `prepareAudio`'s trim computation falls back to
`duration / fps`, which is nonzero for positive fps since every placed
asset spans at least one frame. -/
theorem prepareAudio_effectiveDuration_spec (frames : List (List AssetInfo))
    (fps : ℚ) (a : MediaAsset) (ha : a ∈ getAssetPlacement frames)
    (hfps : 0 < fps) (hsmall : a.durationInSeconds < 1/10) :
    effectiveDurationInSeconds a fps = (a.duration : ℚ) / fps ∧
    effectiveDurationInSeconds a fps ≠ 0 := by
  have h1 : 1 ≤ a.duration := getAssetPlacement_duration_pos frames a ha
  have he : effectiveDurationInSeconds a fps = (a.duration : ℚ) / fps := by
    rw [effectiveDurationInSeconds, if_pos hsmall]
  refine ⟨he, ?_⟩
  rw [he]
  have hnum : (0 : ℚ) < (a.duration : ℚ) := by
    have h0 : 0 < a.duration := h1
    exact_mod_cast h0
  exact ne_of_gt (div_pos hnum hfps)

/-- C5, witness: an asset appearing on exactly one frame (so its time
anchors coincide and `durationInSeconds = 0`) gets the frame-based
effective duration `1/30` at 30 fps, which is nonzero. -/
theorem prepareAudio_effectiveDuration_witness :
    (⟨"a", "s", AssetType.audio, 0, 0, 1, 1, 1, 5, 0⟩ : MediaAsset) ∈
      getAssetPlacement [[⟨"a", "s", AssetType.audio, 5, 1, 1⟩]] ∧
    effectiveDurationInSeconds
      ⟨"a", "s", AssetType.audio, 0, 0, 1, 1, 1, 5, 0⟩ 30 = 1/30 ∧
    effectiveDurationInSeconds
      ⟨"a", "s", AssetType.audio, 0, 0, 1, 1, 1, 5, 0⟩ 30 ≠ 0 := by
  have hplace : getAssetPlacement [[⟨"a", "s", AssetType.audio, 5, 1, 1⟩]] =
      [⟨"a", "s", AssetType.audio, 0, 0, 1, 1, 1, 5, 0⟩] := by
    have hscan : scanAssets [[⟨"a", "s", AssetType.audio, 5, 1, 1⟩]] =
        ⟨[⟨"a", "s", AssetType.audio, 0, 0, 0, 1, 1, 5, 0⟩],
          [("a", 5, 5)]⟩ := rfl
    rw [getAssetPlacement, hscan]
    norm_num [finalizeAsset, mapLookup]
  have hmem : (⟨"a", "s", AssetType.audio, 0, 0, 1, 1, 1, 5, 0⟩ : MediaAsset) ∈
      getAssetPlacement [[⟨"a", "s", AssetType.audio, 5, 1, 1⟩]] := by
    rw [hplace]
    exact List.mem_singleton.mpr rfl
  have h := prepareAudio_effectiveDuration_spec
    [[⟨"a", "s", AssetType.audio, 5, 1, 1⟩]] 30
    ⟨"a", "s", AssetType.audio, 0, 0, 1, 1, 1, 5, 0⟩ hmem (by norm_num)
    (by norm_num)
  refine ⟨hmem, ?_, h.2⟩
  rw [h.1]
  norm_num

/-- C8: when a `play()` attempt was issued (node playing, element
paused, valid src) and its promise rejects with any media error, the
node's `playing` state afterwards is true exactly when the playback
state is `Rendering`; outside `Rendering` a failed play always leaves
the node non-playing.  This holds for both play paths. -/
theorem playFailure_rendering_spec :
    ∀ (ps : PlaybackState) (e : PlayErrorKind),
      actuallyPlayPlaying ps true true (some e) =
        decide (ps = PlaybackState.Rendering) ∧
      simplePlayPlaying ps true true true (some e) =
        decide (ps = PlaybackState.Rendering) := by
  decide

/-- C9, counterexample: `setVolume(-1/2)` emits the warning and applies
the clamped gain 0 to the media element, but the volume stored on the
node (`this.volume`, returned by `getVolume`) keeps the raw negative
value `-1/2`, not 0. -/
theorem setVolume_negative_counterexample :
    (setVolume false (-1/2)).warnedNegative = true ∧
    (setVolume false (-1/2)).elementVolume = 0 ∧
    (setVolume false (-1/2)).storedVolume = -1/2 ∧
    (setVolume false (-1/2)).storedVolume ≠ 0 := by
  have h1 : ¬ (1 : ℚ) < -1/2 := by norm_num
  have hmax : max (-1/2 : ℚ) 0 = 0 := max_eq_right (by norm_num)
  have hmin : min (0 : ℚ) 1 = 0 := min_eq_left (by norm_num)
  refine ⟨?_, ?_, ?_, ?_⟩ <;>
    norm_num [setVolume, h1, hmax, hmin]

/-- C9, amended: for every negative volume `v`, `setVolume` raises no
error: it warns, the gain applied to the media element is clamped to 0,
and no amplification or over-one warning occurs; the volume stored on
the node, however, keeps the raw negative value `v` rather than 0. -/
theorem setVolume_negative_spec (allow : Bool) (v : ℚ) (hv : v < 0) :
    (setVolume allow v).warnedNegative = true ∧
    (setVolume allow v).storedVolume = v ∧
    (setVolume allow v).elementVolume = 0 ∧
    (setVolume allow v).amplified = false ∧
    (setVolume allow v).warnedOverOne = false := by
  have h1 : ¬ (1 : ℚ) < v := by linarith
  have hmax : max v 0 = 0 := max_eq_right hv.le
  have hmin : min (0 : ℚ) 1 = 0 := min_eq_left (by norm_num)
  simp [setVolume, h1, hv, hmax, hmin]

/-- C9, witness: the amended theorem applied at `v = -1` with
amplification allowed. -/
theorem setVolume_negative_spec_witness :
    (-1 : ℚ) < 0 ∧
    (setVolume true (-1)).warnedNegative = true ∧
    (setVolume true (-1)).storedVolume = -1 ∧
    (setVolume true (-1)).elementVolume = 0 := by
  have h := setVolume_negative_spec true (-1) (by norm_num)
  exact ⟨by norm_num, h.1, h.2.1, h.2.2.1⟩

/-- C2, witness: the amended clamping theorem applied at `d = 2`,
`t = 5`: without looping the result lies in `[0, 2]`; with looping it is
`5 - 2 * ⌊5/2⌋ = 1`. -/
theorem clampTime_spec_witness :
    (0 ≤ clampTime false 2 5 ∧ clampTime false 2 5 ≤ 2) ∧
    (0 ≤ clampTime true 2 5 ∧ clampTime true 2 5 ≤ 2) ∧
    clampTime true 2 5 = 1 := by
  have h := clampTime_spec 2 5
  have h1 := h.1 (by norm_num)
  have h2 := h.2 (by norm_num)
  refine ⟨h1, h2.1, ?_⟩
  rw [h2.2.1 (by norm_num)]
  norm_num

end Twick
